import Mathlib

/-!
Verification of the Flat_Price_Prediction pipeline against its specification.

The development shallowly embeds the relevant parts of the repository:
`src/preprocessing.py` (feature engineering, schema enforcement, categorical
encoding, copy discipline of the pipeline), `src/training.py` (model trainer
construction, ensemble weight grid search, training pipeline orchestration)
and `src/evaluation.py` (percentage-accuracy metrics).

Numeric columns are modelled over `ℚ`.  Where the Python code can produce a
non-finite float (NaN or infinity), values are modelled by `Val`, which keeps
a single non-finite marker: every operation that produces NaN or an infinity
in numpy produces `Val.nan` here, so `Val.isFinite` agrees exactly with the
"neither NaN nor infinite" predicate of the specification.
-/

namespace FlatPrice

/-- A float value that is either an ordinary (finite) number or non-finite
(NaN or an infinity; the pipeline code never distinguishes the two, and the
properties below only ever ask for finiteness). -/
inductive Val where
  | num (q : ℚ)
  | nan
deriving DecidableEq, Repr

/-- Finiteness of a value: `num q` is finite, `nan` is not. -/
def Val.isFinite : Val → Bool
  | .num _ => true
  | .nan => false

/-- IEEE-style division on values: any operation touching a non-finite
operand is non-finite, and division by zero is non-finite (in numpy it is
±inf or NaN, all non-finite; the embedded code paths below never divide by a
zero number, they first replace zero denominators). -/
def Val.div : Val → Val → Val
  | .num a, .num b => if b = 0 then .nan else .num (a / b)
  | _, _ => .nan

/-- One input row of the flat-price dataset, restricted to the columns read
by `FeatureEngineer.engineer_all` (src/preprocessing.py, lines 306-425).
All raw CSV inputs are finite numbers. -/
structure Row where
  kitchen_area : ℚ
  bath_area : ℚ
  other_area : ℚ
  extra_area : ℚ
  year : ℚ
  ceil_height : ℚ
  floor_max : ℚ
  floor : ℚ
  total_area : ℚ
  rooms_count : ℚ
  gas : String
  hot_water : String
  central_heating : String
deriving DecidableEq, Repr

/-- `CURRENT_YEAR` from src/config.py. -/
def CURRENT_YEAR : ℚ := 2024

/-- The engineered columns added by `FeatureEngineer.engineer_all` with the
default `FEATURE_ENGINEERING_CONFIG` (every flag true except
`polynomial_features`). -/
structure EngineeredRow where
  building_age : ℚ
  building_age_squared : ℚ
  kitchen_ratio : Val
  bath_ratio : Val
  living_area : ℚ
  living_ratio : Val
  area_per_room : Val
  is_first_floor : ℚ
  is_last_floor : ℚ
  floor_ratio : Val
  amenities_score : ℚ
  volume : ℚ
  has_extra_area : ℚ
  extra_area_ratio : Val
  rooms_floor_interaction : ℚ
  area_age_interaction : ℚ
deriving DecidableEq, Repr

/-- `FeatureEngineer.engineer_all` on a single row (feature engineering is
row-wise, so the batch version is the map of this function over the rows).

Mirrors src/preprocessing.py lines 345-425:
* `_create_building_age_features`: `building_age = CURRENT_YEAR - year`,
  `building_age_squared = building_age ** 2`;
* `_create_area_ratio_features`: `total_area_safe =
  df.total_area.replace(0, np.nan)`; the three ratios divide by that;
  `rooms_safe = df.rooms_count.replace(0, 1)`;
  `area_per_room = total_area / rooms_safe`;
* `_create_floor_features`: indicator columns and
  `floor_ratio = floor / floor_max.replace(0, 1)`;
* `_create_amenities_score`: count of amenity columns equal to "Yes";
* `_create_volume_feature`: `volume = total_area * ceil_height`;
* `_create_extra_area_features`: `has_extra_area = (extra_area > 0)`,
  `extra_area_ratio = extra_area / total_area.replace(0, 1)`;
* `_create_interaction_features`: the two products. -/
def engineerAll (r : Row) : EngineeredRow :=
  let building_age : ℚ := CURRENT_YEAR - r.year
  let total_area_safe : Val := if r.total_area = 0 then .nan else .num r.total_area
  let rooms_safe : ℚ := if r.rooms_count = 0 then 1 else r.rooms_count
  let floor_max_safe : ℚ := if r.floor_max = 0 then 1 else r.floor_max
  let total_area_safe1 : ℚ := if r.total_area = 0 then 1 else r.total_area
  { building_age := building_age
    building_age_squared := building_age ^ 2
    kitchen_ratio := Val.div (.num r.kitchen_area) total_area_safe
    bath_ratio := Val.div (.num r.bath_area) total_area_safe
    living_area := r.other_area
    living_ratio := Val.div (.num r.other_area) total_area_safe
    area_per_room := Val.div (.num r.total_area) (.num rooms_safe)
    is_first_floor := if r.floor = 1 then 1 else 0
    is_last_floor := if r.floor = r.floor_max then 1 else 0
    floor_ratio := Val.div (.num r.floor) (.num floor_max_safe)
    amenities_score :=
      (if r.gas = "Yes" then 1 else 0) + (if r.hot_water = "Yes" then 1 else 0) +
        (if r.central_heating = "Yes" then 1 else 0)
    volume := r.total_area * r.ceil_height
    has_extra_area := if 0 < r.extra_area then 1 else 0
    extra_area_ratio := Val.div (.num r.extra_area) (.num total_area_safe1)
    rooms_floor_interaction := r.rooms_count * r.floor
    area_age_interaction := r.total_area * building_age }

/-- A concrete row with `total_area = 0`, `floor_max = 0` and
`rooms_count = 0`, used to evaluate the division-safety claim. -/
def rowZero : Row :=
  { kitchen_area := 5, bath_area := 2, other_area := 30, extra_area := 3,
    year := 2000, ceil_height := 3, floor_max := 0, floor := 1,
    total_area := 0, rooms_count := 0,
    gas := "Yes", hot_water := "No", central_heating := "Yes" }

/-- A concrete row with `rooms_count = 3` and `total_area = 65`, used to
evaluate the `area_per_room` formula claim. -/
def rowC2 : Row :=
  { kitchen_area := 10, bath_area := 4, other_area := 40, extra_area := 0,
    year := 1990, ceil_height := 27/10, floor_max := 9, floor := 4,
    total_area := 65, rooms_count := 3,
    gas := "Yes", hot_water := "Yes", central_heating := "Yes" }

/-- Claim C1, counterexample: on a row with `total_area = 0` the engineered
values `kitchen_ratio`, `bath_ratio` and `living_ratio` are NaN, because the
code substitutes `np.nan` (not a non-zero number) for a zero `total_area`
denominator; so not every derived value of that row is finite. -/
theorem C1_counterexample :
    (engineerAll rowZero).kitchen_ratio.isFinite = false ∧
    (engineerAll rowZero).bath_ratio.isFinite = false ∧
    (engineerAll rowZero).living_ratio.isFinite = false ∧
    (engineerAll rowZero).kitchen_ratio = Val.nan := by
  decide

/-- Claim C1 (amended): feature engineering on a row with `total_area = 0`,
`floor_max = 0` or `rooms_count = 0` completes without raising (the embedded
`engineerAll` is a total function), and the derived values `area_per_room`,
`floor_ratio` and `extra_area_ratio` are always finite, their zero
denominators being replaced by 1; but `kitchen_ratio`, `bath_ratio` and
`living_ratio` are finite exactly when `total_area ≠ 0` — on a row with
`total_area = 0` they are NaN, the zero denominator being replaced by
`np.nan` rather than by a non-zero substitute. -/
theorem C1_theorem (r : Row) :
    (engineerAll r).area_per_room.isFinite = true ∧
    (engineerAll r).floor_ratio.isFinite = true ∧
    (engineerAll r).extra_area_ratio.isFinite = true ∧
    ((engineerAll r).kitchen_ratio.isFinite = true ↔ r.total_area ≠ 0) ∧
    ((engineerAll r).bath_ratio.isFinite = true ↔ r.total_area ≠ 0) ∧
    ((engineerAll r).living_ratio.isFinite = true ↔ r.total_area ≠ 0) := by
  unfold engineerAll
  by_cases hta : r.total_area = 0 <;>
    by_cases hrc : r.rooms_count = 0 <;>
      by_cases hfm : r.floor_max = 0 <;>
        simp [hta, hrc, hfm, Val.div, Val.isFinite]

/-- Claim C1, witness: the amended statement evaluated on the concrete
all-zero-denominator row. -/
theorem C1_witness :
    (engineerAll rowZero).area_per_room.isFinite = true ∧
    (engineerAll rowZero).floor_ratio.isFinite = true ∧
    (engineerAll rowZero).extra_area_ratio.isFinite = true ∧
    ¬ (engineerAll rowZero).kitchen_ratio.isFinite = true :=
  ⟨(C1_theorem rowZero).1, (C1_theorem rowZero).2.1, (C1_theorem rowZero).2.2.1,
    fun h => by
      have := ((C1_theorem rowZero).2.2.2.1).mp h
      exact this (by decide)⟩

/-- Claim C2, counterexample: for a row with `rooms_count = 3` and
`total_area = 65` the engineered `area_per_room` is `65/3`, not `65/4`: the
code divides by `rooms_count.replace(0, 1)`, not by `rooms_count + 1`. -/
theorem C2_counterexample :
    (engineerAll rowC2).area_per_room = Val.num (65/3) ∧
    (engineerAll rowC2).area_per_room ≠ Val.num (65/4) := by
  constructor <;> norm_num [engineerAll, rowC2, Val.div]

/-- Claim C2 (amended): for every row, `area_per_room` equals `total_area`
divided by `rooms_count` with a zero `rooms_count` replaced by 1 (studios
count as one room); in particular for `rooms_count = 3`, `total_area = 65`
it equals `65/3`. -/
theorem C2_theorem (r : Row) :
    (engineerAll r).area_per_room =
      Val.num (r.total_area / (if r.rooms_count = 0 then 1 else r.rooms_count)) := by
  unfold engineerAll
  by_cases hrc : r.rooms_count = 0 <;> simp [hrc, Val.div]

/-! ### Schema enforcement in `DataPreprocessor.transform`

A data frame is modelled as its ordered association list of columns:
names paired with value vectors.  The definitions below embed the schema
enforcement block of `DataPreprocessor.transform`
(src/preprocessing.py, lines 513-530), which runs on the encoded frame:
drop the non-feature columns, add every frozen feature that is missing as a
zero column, drop columns outside the frozen list and finally select the
frozen columns in the frozen order (`X = X[self.feature_names]`, which
raises a `KeyError` when a requested column is absent — hence the `Option`
in `selectColumns`). -/

abbrev Frame := List (String × List ℚ)

/-- The ordered list of column names of a frame. -/
def Frame.cols (X : Frame) : List String := X.map Prod.fst

/-- `X.drop(columns=[col for col in names if col in X.columns])`. -/
def dropColumns (names : List String) (X : Frame) : Frame :=
  X.filter (fun p => decide (p.1 ∉ names))

/-- The `for col in missing_features: X[col] = 0` loop: every frozen feature
absent from `X` is appended as a column of `n` zeros. -/
def addMissing (feats : List String) (n : Nat) (X : Frame) : Frame :=
  X ++ (feats.filter (fun c => decide (c ∉ X.cols))).map
    (fun c => (c, List.replicate n (0 : ℚ)))

/-- `X.drop(columns=list(extra_features))`: keep only frozen features. -/
def dropExtra (feats : List String) (X : Frame) : Frame :=
  X.filter (fun p => decide (p.1 ∈ feats))

/-- `X = X[feature_names]`: column selection in the given order; `none`
models the pandas `KeyError` on a missing column. -/
def selectColumns (feats : List String) (X : Frame) : Option Frame :=
  if ∀ c ∈ feats, c ∈ X.cols then
    some (feats.map (fun c => (c, (X.lookup c).getD [])))
  else none

/-- The schema-enforcement suffix of `DataPreprocessor.transform` applied to
the encoded frame `X`, with frozen feature list `featureNames` and row count
`n` (src/preprocessing.py, lines 513-530). -/
def transformSchema (featureNames : List String) (n : Nat) (X : Frame) :
    Option Frame :=
  let X1 := dropColumns ["index", "Unnamed: 0", "price"] X
  let X2 := addMissing featureNames n X1
  let X3 := dropExtra featureNames X2
  selectColumns featureNames X3

theorem cols_append (A B : Frame) : (A ++ B).cols = A.cols ++ B.cols :=
  List.map_append _ _ _

theorem mem_cols_iff (X : Frame) (c : String) :
    c ∈ X.cols ↔ ∃ p ∈ X, p.1 = c := by
  simp [Frame.cols, List.mem_map, eq_comm]

theorem mem_cols_addMissing (feats : List String) (n : Nat) (X : Frame)
    (c : String) (h : c ∈ feats) : c ∈ (addMissing feats n X).cols := by
  by_cases hx : c ∈ X.cols
  · simp [addMissing, cols_append, hx]
  · rw [addMissing, cols_append, List.mem_append]
    right
    rw [mem_cols_iff]
    refine ⟨(c, List.replicate n 0), ?_, rfl⟩
    simp [List.mem_map, List.mem_filter, h, hx]

theorem mem_cols_dropExtra (feats : List String) (X : Frame) (c : String)
    (hc : c ∈ X.cols) (hf : c ∈ feats) : c ∈ (dropExtra feats X).cols := by
  rw [mem_cols_iff] at hc ⊢
  obtain ⟨p, hpX, hpc⟩ := hc
  exact ⟨p, List.mem_filter.mpr ⟨hpX, by simp [hpc, hf]⟩, hpc⟩

theorem lookup_mapPair (g : String → List ℚ) (l : List String) (c : String)
    (h : c ∈ l) : (l.map (fun c => (c, g c))).lookup c = some (g c) := by
  induction l with
  | nil => cases h
  | cons a l ih =>
    by_cases hca : c = a
    · subst hca; simp [List.lookup]
    · rcases List.mem_cons.mp h with h1 | h2
      · exact absurd h1 hca
      · simpa [List.lookup, beq_eq_false_iff_ne.mpr hca] using ih h2

theorem lookup_append_of_not_left (A B : Frame) (c : String)
    (h : c ∉ Frame.cols A) : (A ++ B).lookup c = B.lookup c := by
  induction A with
  | nil => rfl
  | cons p A ih =>
    simp only [Frame.cols, List.map_cons, List.mem_cons, not_or] at h
    obtain ⟨hne, hA⟩ := h
    simpa [List.lookup, beq_eq_false_iff_ne.mpr hne] using
      ih (by simpa [Frame.cols] using hA)

theorem cols_filter_sub (p : String × List ℚ → Bool) (X : Frame) :
    Frame.cols (X.filter p) ⊆ Frame.cols X := by
  intro c hc
  rw [mem_cols_iff] at hc ⊢
  obtain ⟨q, hq, hqc⟩ := hc
  exact ⟨q, (List.mem_filter.mp hq).1, hqc⟩

/-- Claim C3: `transform` never fails at the final column selection, the
returned frame has exactly the frozen column list in the frozen order
regardless of the input frame, and every frozen column that was absent from
the (dropped) input is a column of zeros. -/
theorem C3_theorem (F : List String) (n : Nat) (X : Frame) :
    (transformSchema F n X).isSome = true ∧
    ∀ Y, transformSchema F n X = some Y →
      Frame.cols Y = F ∧
      ∀ c ∈ F, c ∉ (dropColumns ["index", "Unnamed: 0", "price"] X).cols →
        Y.lookup c = some (List.replicate n (0 : ℚ)) := by
  set X1 := dropColumns ["index", "Unnamed: 0", "price"] X with hX1
  set M : Frame := (F.filter (fun c => decide (c ∉ X1.cols))).map
    (fun c => (c, List.replicate n (0 : ℚ))) with hM
  have hX2 : addMissing F n X1 = X1 ++ M := rfl
  set X3 := dropExtra F (addMissing F n X1) with hX3
  have hall : ∀ c ∈ F, c ∈ X3.cols := fun c hc =>
    mem_cols_dropExtra F _ c (mem_cols_addMissing F n X1 c hc) hc
  have hsel : transformSchema F n X =
      some (F.map (fun c => (c, (X3.lookup c).getD []))) := by
    simp only [transformSchema, selectColumns, ← hX1, ← hX3, if_pos hall]
  refine ⟨by simp [hsel], ?_⟩
  intro Y hY
  rw [hsel, Option.some.injEq] at hY
  subst hY
  constructor
  · simp [Frame.cols, List.map_map, Function.comp_def]
  · intro c hcF hcX1
    rw [lookup_mapPair _ _ _ hcF]
    have hX3c : X3.lookup c = some (List.replicate n (0 : ℚ)) := by
      have hsplit : X3 = X1.filter (fun p => decide (p.1 ∈ F)) ++
          M.filter (fun p => decide (p.1 ∈ F)) := by
        rw [hX3, dropExtra, hX2, List.filter_append]
      have hMall : M.filter (fun p => decide (p.1 ∈ F)) = M := by
        rw [List.filter_eq_self]
        intro p hp
        rw [hM, List.mem_map] at hp
        obtain ⟨a, ha, hap⟩ := hp
        have : a ∈ F := (List.mem_filter.mp ha).1
        simp [← hap, this]
      have hnotl : c ∉ Frame.cols (X1.filter (fun p => decide (p.1 ∈ F))) :=
        fun hm => hcX1 (cols_filter_sub _ _ hm)
      rw [hsplit, hMall, lookup_append_of_not_left _ _ _ hnotl, hM]
      exact lookup_mapPair _ _ _ (List.mem_filter.mpr ⟨hcF, by simp [hcX1]⟩)
    rw [hX3c]
    rfl

/-- A concrete raw frame for the schema claim: out-of-order columns, an
extra column `c`, the target column and a missing frozen column `b`. -/
def frameC3 : Frame := [("a", [1]), ("price", [2]), ("c", [3])]

/-- A concrete frozen feature list for the schema claim. -/
def featsC3 : List String := ["b", "a"]

/-- Claim C3, witness: the schema enforcement applied to `frameC3` with
frozen features `["b", "a"]` succeeds and returns exactly those columns in
that order, the absent `b` filled with a zero. -/
theorem C3_witness :
    transformSchema ["b", "a"] 1 frameC3 = some [("b", [0]), ("a", [1])] ∧
    Frame.cols [(("b" : String), [(0 : ℚ)]), ("a", [1])] = ["b", "a"] ∧
    List.lookup "b" [(("b" : String), [(0 : ℚ)]), ("a", [1])] =
      some (List.replicate 1 (0 : ℚ)) := by
  have h : transformSchema featsC3 1 frameC3 =
      some [("b", [0]), ("a", [1])] := by decide
  refine ⟨h, ((C3_theorem featsC3 1 frameC3).2 _ h).1, ?_⟩
  exact ((C3_theorem featsC3 1 frameC3).2 _ h).2 "b" (by decide) (by decide)

/-! ### ModelTrainer: construction and lazy model building

`ModelTrainer.__init__` (src/training.py, lines 26-36) only stores the
requested model type; `build_model` (lines 38-54) raises `ValueError` on an
unknown type; `train` (lines 56-94) calls `build_model` lazily when no model
has been built yet.  Python exceptions are modelled by `Except String`; a
function body that cannot raise returns `.ok`. -/

inductive BoostModel where
  | xgboost
  | lightgbm
  | catboost
deriving DecidableEq, Repr

structure ModelTrainer where
  model_type : String
  model : Option BoostModel
deriving DecidableEq, Repr

/-- `ModelTrainer.__init__`: stores the type string and sets `model = None`;
the body validates nothing, so it never raises. -/
def ModelTrainer.init (model_type : String) : Except String ModelTrainer :=
  .ok ⟨model_type, none⟩

/-- `ModelTrainer.build_model`: dispatches on the stored type string and
raises `ValueError` on anything outside the three supported libraries. -/
def ModelTrainer.build_model (t : ModelTrainer) : Except String ModelTrainer :=
  if t.model_type = "xgboost" then .ok { t with model := some .xgboost }
  else if t.model_type = "lightgbm" then .ok { t with model := some .lightgbm }
  else if t.model_type = "catboost" then .ok { t with model := some .catboost }
  else .error ("Unknown model type: " ++ t.model_type ++
    ". Only xgboost, lightgbm, catboost are supported.")

/-- `ModelTrainer.train`: `if self.model is None: self.build_model()`, then
fits the built model (fitting itself is not a failure path modelled here). -/
def ModelTrainer.train (t : ModelTrainer) : Except String ModelTrainer := do
  let t1 ← if t.model = none then t.build_model else .ok t
  .ok t1

/-- Claim C4, counterexample: for the unknown model type "linear" the
constructor succeeds (no configuration error at construction time) and the
failure is raised only by the later `train` call — the opposite of the
claimed fail-fast-at-construction behaviour. -/
theorem C4_counterexample :
    ModelTrainer.init "linear" = .ok ⟨"linear", none⟩ ∧
    ModelTrainer.train ⟨"linear", none⟩ =
      .error "Unknown model type: linear. Only xgboost, lightgbm, catboost are supported." := by
  constructor
  · rfl
  · rfl

/-- Claim C4 (amended): for every model-type string outside
{xgboost, lightgbm, catboost}, constructing the `ModelTrainer` succeeds
(the constructor performs no validation) and the `ValueError` is raised
later, on the first `train` (or `build_model`) call. -/
theorem C4_theorem (s : String) (h1 : s ≠ "xgboost") (h2 : s ≠ "lightgbm")
    (h3 : s ≠ "catboost") :
    ModelTrainer.init s = .ok ⟨s, none⟩ ∧
    ModelTrainer.train ⟨s, none⟩ =
      .error ("Unknown model type: " ++ s ++
        ". Only xgboost, lightgbm, catboost are supported.") := by
  refine ⟨rfl, ?_⟩
  simp only [ModelTrainer.train, ModelTrainer.build_model, if_neg h1, if_neg h2,
    if_neg h3, if_pos rfl]
  rfl

/-- Claim C4, witness: the amended statement evaluated at the concrete
unknown model type "gbdt". -/
theorem C4_witness :
    ModelTrainer.init "gbdt" = .ok ⟨"gbdt", none⟩ ∧
    ModelTrainer.train ⟨"gbdt", none⟩ =
      .error ("Unknown model type: " ++ "gbdt" ++
        ". Only xgboost, lightgbm, catboost are supported.") :=
  C4_theorem "gbdt" (by decide) (by decide) (by decide)

/-! ### Ensemble weight grid search

`EnsembleTrainer.optimize_weights` (src/training.py, lines 272-323): for
three members it iterates `w1 in np.arange(0.2, 0.8, 0.1)` and
`w2 in np.arange(0.2, 0.8, 0.1)`, sets `w3 = 1 - w1 - w2`, skips the
combination when `w3 < 0.1 or w3 > 0.8`, scores the weighted validation
prediction with `r2_score`, and keeps a strictly better score
(`if score > best_score`), so ties go to the first combination found.
The float grid is embedded in exact rational arithmetic: `np.arange` start,
step and length are exact here (`ceil((0.8-0.2)/0.1) = 6` values). -/

/-- `np.arange(0.2, 0.8, 0.1)`: six values 0.2, 0.3, ..., 0.7. -/
def gridSteps : List ℚ := (List.range 6).map (fun i => (2 + (i : ℚ)) / 10)

/-- The list of weight triples examined by the nested `w1`/`w2` loops over a
given step list, in iteration order, with the `w3` bound check of the
source applied. -/
def gridTriples (steps : List ℚ) : List (ℚ × ℚ × ℚ) :=
  (steps.flatMap (fun w1 => steps.map (fun w2 => (w1, w2, 1 - w1 - w2)))).filter
    (fun t => decide (¬ (t.2.2 < 1/10 ∨ 8/10 < t.2.2)))

/-- The weight triples the source code actually examines. -/
def codeTriples : List (ℚ × ℚ × ℚ) := gridTriples gridSteps

/-- Modelled from the spec: the grid the specification describes, in which
the two free weights range over all 0.1-step values of [0.1, 0.8]
(used only to compare the code against the specified search). -/
def specGridSteps : List ℚ := (List.range 8).map (fun i => (1 + (i : ℚ)) / 10)

/-- Modelled from the spec: the triples of the specified search. -/
def specTriples : List (ℚ × ℚ × ℚ) := gridTriples specGridSteps

/-- The `best_score = -np.inf / if score > best_score` accumulation loop:
keeps the current best, replacing it only on a strictly larger score; the
first element always replaces the `-inf` start. -/
def foldBest {α : Type} (score : α → ℚ) (l : List α) : Option α :=
  l.foldl (fun best t =>
    match best with
    | none => some t
    | some b => if score b < score t then some t else some b) none

/-- Structural-recursion companion of `foldBest`, used for proofs. -/
def firstMax {α : Type} (score : α → ℚ) : List α → Option α
  | [] => none
  | t :: ts =>
    match firstMax score ts with
    | none => some t
    | some b => some (if score t < score b then b else t)

/-- Combining an already-selected best with the best of the rest. -/
def mergeBest {α : Type} (score : α → ℚ) (b : α) : Option α → α
  | none => b
  | some c => if score b < score c then c else b

theorem foldBest_some {α : Type} (score : α → ℚ) (l : List α) : ∀ b : α,
    l.foldl (fun best t =>
      match best with
      | none => some t
      | some b => if score b < score t then some t else some b) (some b) =
    some (mergeBest score b (firstMax score l)) := by
  induction l with
  | nil => intro b; rfl
  | cons t ts ih =>
    intro b
    show ts.foldl _ (if score b < score t then some t else some b) = _
    have hstep : (if score b < score t then some t else some b) =
        some (if score b < score t then t else b) := by
      by_cases h : score b < score t <;> simp [h]
    rw [hstep, ih]
    congr 1
    cases hts : firstMax score ts with
    | none => simp [firstMax, hts, mergeBest]
    | some c =>
      simp only [firstMax, hts, mergeBest]
      split_ifs <;> first | rfl | linarith

theorem foldBest_eq_firstMax {α : Type} (score : α → ℚ) (l : List α) :
    foldBest score l = firstMax score l := by
  cases l with
  | nil => rfl
  | cons t ts =>
    show ts.foldl _ (some t) = _
    rw [foldBest_some score ts t]
    cases hts : firstMax score ts with
    | none => simp [firstMax, hts, mergeBest]
    | some c => simp [firstMax, hts, mergeBest]

theorem firstMax_mem {α : Type} (score : α → ℚ) (l : List α) (b : α)
    (h : firstMax score l = some b) : b ∈ l := by
  induction l with
  | nil => cases h
  | cons t ts ih =>
    cases hts : firstMax score ts with
    | none =>
      rw [firstMax, hts, Option.some.injEq] at h
      simp [← h]
    | some c =>
      rw [firstMax, hts, Option.some.injEq] at h
      by_cases htc : score t < score c
      · rw [if_pos htc] at h
        exact List.mem_cons_of_mem _ (ih (h ▸ hts))
      · rw [if_neg htc] at h
        simp [← h]

theorem firstMax_eq_none {α : Type} (score : α → ℚ) (l : List α)
    (h : firstMax score l = none) : l = [] := by
  cases l with
  | nil => rfl
  | cons t ts =>
    rw [firstMax] at h
    cases hts : firstMax score ts <;> simp [hts] at h

theorem firstMax_le {α : Type} (score : α → ℚ) (l : List α) (b : α)
    (h : firstMax score l = some b) : ∀ u ∈ l, score u ≤ score b := by
  induction l generalizing b with
  | nil => cases h
  | cons t ts ih =>
    intro u hu
    cases hts : firstMax score ts with
    | none =>
      have hnil : ts = [] := firstMax_eq_none score ts hts
      subst hnil
      simp only [firstMax, Option.some.injEq] at h
      rcases List.mem_singleton.mp hu with rfl
      exact le_of_eq (congrArg score h)
    | some c =>
      rw [firstMax, hts, Option.some.injEq] at h
      by_cases htc : score t < score c
      · rw [if_pos htc] at h
        subst h
        rcases List.mem_cons.mp hu with rfl | hu2
        · exact le_of_lt htc
        · exact ih c hts u hu2
      · rw [if_neg htc] at h
        subst h
        rcases List.mem_cons.mp hu with rfl | hu2
        · exact le_refl _
        · exact le_trans (ih c hts u hu2) (not_lt.mp htc)

theorem firstMax_first {α : Type} (score : α → ℚ) (l : List α) (b : α)
    (h : firstMax score l = some b) :
    ∃ n, l[n]? = some b ∧ ∀ u ∈ l.take n, score u < score b := by
  induction l with
  | nil => cases h
  | cons t ts ih =>
    cases hts : firstMax score ts with
    | none =>
      rw [firstMax, hts, Option.some.injEq] at h
      exact ⟨0, by simp [h], by simp⟩
    | some c =>
      rw [firstMax, hts, Option.some.injEq] at h
      by_cases htc : score t < score c
      · rw [if_pos htc] at h
        subst h
        obtain ⟨n, hget, hlt⟩ := ih hts
        refine ⟨n + 1, by simpa using hget, ?_⟩
        intro u hu
        rw [List.take_succ_cons] at hu
        rcases List.mem_cons.mp hu with rfl | hu2
        · exact htc
        · exact hlt u hu2
      · rw [if_neg htc] at h
        exact ⟨0, by simp [h], by simp⟩

/-- With a constant score the search keeps the first combination found. -/
theorem foldBest_const {α : Type} (score : α → ℚ) (l : List α) (k : ℚ)
    (h : ∀ u ∈ l, score u = k) : foldBest score l = l.head? := by
  rw [foldBest_eq_firstMax]
  induction l with
  | nil => rfl
  | cons t ts ih =>
    cases hts : firstMax score ts with
    | none => simp [firstMax, hts]
    | some c =>
      have hc : score c = k := h c (List.mem_cons_of_mem _ (firstMax_mem score ts c hts))
      have ht : score t = k := h t (List.mem_cons_self _ _)
      simp [firstMax, hts, ht, hc]

theorem mem_gridTriples (steps : List ℚ) (t : ℚ × ℚ × ℚ) :
    t ∈ gridTriples steps ↔
      t.1 ∈ steps ∧ t.2.1 ∈ steps ∧ t.2.2 = 1 - t.1 - t.2.1 ∧
        1/10 ≤ t.2.2 ∧ t.2.2 ≤ 8/10 := by
  obtain ⟨w1, w2, w3⟩ := t
  simp only [gridTriples, List.mem_filter, List.mem_flatMap, List.mem_map,
    decide_eq_true_eq, not_or, not_lt]
  constructor
  · rintro ⟨⟨a, ha, b, hb, heq⟩, h1, h2⟩
    cases heq
    exact ⟨ha, hb, rfl, h1, h2⟩
  · rintro ⟨h1, h2, rfl, h4, h5⟩
    exact ⟨⟨w1, h1, w2, h2, rfl⟩, h4, h5⟩

theorem gridSteps_eq : gridSteps = [1/5, 3/10, 2/5, 1/2, 3/5, 7/10] := by
  have h : List.range 6 = [0, 1, 2, 3, 4, 5] := by decide
  rw [gridSteps, h]
  norm_num

theorem specGridSteps_eq :
    specGridSteps = [1/10, 1/5, 3/10, 2/5, 1/2, 3/5, 7/10, 4/5] := by
  have h : List.range 8 = [0, 1, 2, 3, 4, 5, 6, 7] := by decide
  rw [specGridSteps, h]
  norm_num

theorem codeTriples_head : codeTriples.head? = some (1/5, 1/5, 3/5) := by
  rw [codeTriples, gridTriples, gridSteps_eq]
  norm_num [List.flatMap_cons, List.filter_cons]

theorem specTriples_head : specTriples.head? = some (1/10, 1/10, 4/5) := by
  rw [specTriples, gridTriples, specGridSteps_eq]
  norm_num [List.flatMap_cons, List.filter_cons]

/-- `EnsembleTrainer._weighted_predict` (src/training.py, lines 325-342)
specialized to three members: the pointwise weighted sum of the three
prediction vectors. -/
def weightedPredict3 (w : ℚ × ℚ × ℚ) (p1 p2 p3 : List ℚ) : List ℚ :=
  (p1.zip (p2.zip p3)).map (fun q => w.1 * q.1 + w.2.1 * q.2.1 + w.2.2 * q.2.2)

/-- Residual sum of squares of `sklearn.metrics.r2_score`. -/
def ssRes (ytrue ypred : List ℚ) : ℚ :=
  ((ytrue.zip ypred).map (fun q => (q.1 - q.2) ^ 2)).sum

/-- Total sum of squares (about the mean) of `sklearn.metrics.r2_score`. -/
def ssTot (ytrue : List ℚ) : ℚ :=
  (ytrue.map (fun y => (y - ytrue.sum / (ytrue.length : ℚ)) ^ 2)).sum

/-- `sklearn.metrics.r2_score`: `1 - ss_res / ss_tot`, where a zero total
sum of squares yields 1 when the residual is also zero and 0 otherwise. -/
def r2Score (ytrue ypred : List ℚ) : ℚ :=
  if ssTot ytrue = 0 then (if ssRes ytrue ypred = 0 then 1 else 0)
  else 1 - ssRes ytrue ypred / ssTot ytrue

/-- The grid-search loop of `optimize_weights` over a generic objective. -/
def optimizeWeightsSearch (score : ℚ × ℚ × ℚ → ℚ) : Option (ℚ × ℚ × ℚ) :=
  foldBest score codeTriples

/-- The grid search of `EnsembleTrainer.optimize_weights` (src/training.py,
lines 299-316) for three members: maximize the validation `r2_score` of the
weighted prediction over the examined triples. -/
def optimizeWeights3 (p1 p2 p3 yval : List ℚ) : Option (ℚ × ℚ × ℚ) :=
  optimizeWeightsSearch (fun t => r2Score yval (weightedPredict3 t p1 p2 p3))

/-- Modelled from the spec: the identical search run over the grid the
specification describes (free weights stepped at 0.1 over [0.1, 0.8]). -/
def specSearch3 (p1 p2 p3 yval : List ℚ) : Option (ℚ × ℚ × ℚ) :=
  foldBest (fun t => r2Score yval (weightedPredict3 t p1 p2 p3)) specTriples

/-- A validation split on which every weight triple summing to 1 reproduces
the target exactly, so every examined combination scores R² = 1. -/
def yC5 : List ℚ := [0, 10]

theorem scoreC5_const (t : ℚ × ℚ × ℚ) (h : t.2.2 = 1 - t.1 - t.2.1) :
    r2Score yC5 (weightedPredict3 t yC5 yC5 yC5) = 1 := by
  obtain ⟨w1, w2, w3⟩ := t
  simp only at h
  subst h
  have hpred : weightedPredict3 (w1, w2, 1 - w1 - w2) yC5 yC5 yC5 = yC5 := by
    simp only [weightedPredict3, yC5, List.zip]
    norm_num
    ring_nf
  rw [hpred, r2Score]
  have hres : ssRes yC5 yC5 = 0 := by
    simp [ssRes, yC5]
  have htot : ssTot yC5 ≠ 0 := by
    simp [ssTot, yC5]
    norm_num
  rw [if_neg htot, hres]
  norm_num

theorem optimizeWeights3_yC5 :
    optimizeWeights3 yC5 yC5 yC5 yC5 = some (1/5, 1/5, 3/5) := by
  rw [optimizeWeights3, optimizeWeightsSearch,
    foldBest_const (fun t => r2Score yC5 (weightedPredict3 t yC5 yC5 yC5))
      codeTriples 1 (fun u hu =>
        scoreC5_const u ((mem_gridTriples gridSteps u).mp hu).2.2.1),
    codeTriples_head]

theorem specSearch3_yC5 :
    specSearch3 yC5 yC5 yC5 yC5 = some (1/10, 1/10, 4/5) := by
  rw [specSearch3,
    foldBest_const (fun t => r2Score yC5 (weightedPredict3 t yC5 yC5 yC5))
      specTriples 1 (fun u hu =>
        scoreC5_const u ((mem_gridTriples specGridSteps u).mp hu).2.2.1),
    specTriples_head]

/-- Claim C5, counterexample: on a concrete validation split where every
examined triple ties at R² = 1, the code search (first-found tie-break over
its actual grid) returns (0.2, 0.2, 0.6), while the search described by the
specification — free weights stepped at 0.1 over [0.1, 0.8] — returns
(0.1, 0.1, 0.8); moreover no triple examined by the code has a free weight
equal to 0.1. -/
theorem C5_counterexample :
    optimizeWeights3 yC5 yC5 yC5 yC5 = some (1/5, 1/5, 3/5) ∧
    specSearch3 yC5 yC5 yC5 yC5 = some (1/10, 1/10, 4/5) ∧
    ((1/5 : ℚ), (1/5 : ℚ), (3/5 : ℚ)) ≠ ((1/10 : ℚ), (1/10 : ℚ), (4/5 : ℚ)) ∧
    codeTriples.all (fun t => !(decide (t.1 = 1/10))) = true := by
  refine ⟨optimizeWeights3_yC5, specSearch3_yC5, by norm_num, ?_⟩
  rw [List.all_eq_true]
  intro t ht
  have h1 := ((mem_gridTriples gridSteps t).mp ht).1
  rw [gridSteps_eq] at h1
  simp only [List.mem_cons, List.not_mem_nil, or_false] at h1
  simp only [Bool.not_eq_true', decide_eq_false_iff_not]
  rcases h1 with h | h | h | h | h | h <;> rw [h] <;> norm_num

/-- Claim C5 (amended): for three members, `optimize_weights` grid-searches
weight triples in which w1 and w2 are stepped at 0.1 granularity from 0.2
inclusive to 0.8 exclusive (`np.arange(0.2, 0.8, 0.1)`, values 0.2–0.7,
taken exactly here), the third weight is fixed as 1 - w1 - w2 and
constrained to [0.1, 0.8], and the triple maximizing R² on the validation
split is kept, ties broken by the first combination found in iteration
order. -/
theorem C5_theorem (p1 p2 p3 yval : List ℚ) (b : ℚ × ℚ × ℚ)
    (h : optimizeWeights3 p1 p2 p3 yval = some b) :
    b ∈ codeTriples ∧
    (∀ t ∈ codeTriples,
      r2Score yval (weightedPredict3 t p1 p2 p3) ≤
        r2Score yval (weightedPredict3 b p1 p2 p3)) ∧
    (∃ n, codeTriples[n]? = some b ∧ ∀ u ∈ codeTriples.take n,
      r2Score yval (weightedPredict3 u p1 p2 p3) <
        r2Score yval (weightedPredict3 b p1 p2 p3)) ∧
    (∀ t : ℚ × ℚ × ℚ, t ∈ codeTriples ↔
      (t.1 ∈ gridSteps ∧ t.2.1 ∈ gridSteps ∧ t.2.2 = 1 - t.1 - t.2.1 ∧
        1/10 ≤ t.2.2 ∧ t.2.2 ≤ 8/10)) ∧
    gridSteps = [1/5, 3/10, 2/5, 1/2, 3/5, 7/10] := by
  rw [optimizeWeights3, optimizeWeightsSearch, foldBest_eq_firstMax] at h
  exact ⟨firstMax_mem _ _ _ h, firstMax_le _ _ _ h, firstMax_first _ _ _ h,
    fun t => mem_gridTriples gridSteps t, gridSteps_eq⟩

/-- Claim C5, witness: the amended statement applied to the concrete
validation split `yC5`, where the search returns (0.2, 0.2, 0.6). -/
theorem C5_witness :
    ((1/5 : ℚ), (1/5 : ℚ), (3/5 : ℚ)) ∈ codeTriples ∧
    gridSteps = [1/5, 3/10, 2/5, 1/2, 3/5, 7/10] := by
  have h := C5_theorem yC5 yC5 yC5 yC5 (1/5, 1/5, 3/5) optimizeWeights3_yC5
  exact ⟨h.1, h.2.2.2.2⟩

/-! ### Ensemble weight mappings

Python `dict` semantics with insertion order: inserting an existing key
overwrites its value in place, a new key is appended at the end.  The weight
dictionaries of `EnsembleTrainer` are association lists built this way. -/

def dictInsert {β : Type} (k : String) (v : β) (d : List (String × β)) :
    List (String × β) :=
  if d.any (fun p => p.1 == k) then
    d.map (fun p => if p.1 == k then (k, v) else p)
  else d ++ [(k, v)]

def dictOf {β : Type} (pairs : List (String × β)) : List (String × β) :=
  pairs.foldl (fun d p => dictInsert p.1 p.2 d) []

/-- The default weights of `EnsembleTrainer.train_all` (src/training.py,
line 266): `{mt: 1/len(self.model_types) for mt in self.model_types}`. -/
def defaultWeights (model_types : List String) : List (String × ℚ) :=
  dictOf (model_types.map (fun mt => (mt, 1 / (model_types.length : ℚ))))

/-- `dict(zip(self.model_types, [w1, w2, w3]))` (src/training.py, line 310). -/
def zipWeights (model_types : List String) (t : ℚ × ℚ × ℚ) :
    List (String × ℚ) :=
  dictOf (model_types.zip [t.1, t.2.1, t.2.2])

/-- The weight update of `EnsembleTrainer.optimize_weights` (src/training.py,
lines 299-323): the grid loop runs only for exactly three members, and the
weights are reassigned only when a best combination was found. -/
def optimizeWeightsUpdate (model_types : List String)
    (score : ℚ × ℚ × ℚ → ℚ) (w0 : List (String × ℚ)) : List (String × ℚ) :=
  if model_types.length = 3 then
    match optimizeWeightsSearch score with
    | some t => zipWeights model_types t
    | none => w0
  else w0

/-- `sum(self.weights.values())`. -/
def sumValues (d : List (String × ℚ)) : ℚ := (d.map Prod.snd).sum

theorem dictInsert_fresh {β : Type} (k : String) (v : β)
    (d : List (String × β)) (h : ∀ p ∈ d, p.1 ≠ k) :
    dictInsert k v d = d ++ [(k, v)] := by
  have hb : d.any (fun p => p.1 == k) = false := by
    rw [List.any_eq_false]
    intro p hp
    simpa [beq_eq_false_iff_ne] using h p hp
  simp [dictInsert, hb]

theorem dictOf_aux {β : Type} (pairs : List (String × β)) : ∀ acc,
    (pairs.map Prod.fst).Nodup →
    (∀ k ∈ pairs.map Prod.fst, ∀ q ∈ acc, q.1 ≠ k) →
    pairs.foldl (fun d p => dictInsert p.1 p.2 d) acc = acc ++ pairs := by
  induction pairs with
  | nil => intro acc _ _; simp
  | cons p ps ih =>
    intro acc hnd hfresh
    rw [List.foldl_cons,
      dictInsert_fresh p.1 p.2 acc (fun q hq => hfresh p.1 (by simp) q hq)]
    rw [List.map_cons] at hnd
    obtain ⟨hhd, hnd2⟩ := List.nodup_cons.mp hnd
    rw [ih (acc ++ [p]) hnd2 ?_]
    · simp
    · intro k hk q hq
      rcases List.mem_append.mp hq with hq1 | hq2
      · exact hfresh k (by simp [hk]) q hq1
      · rcases List.mem_singleton.mp hq2 with rfl
        intro he
        exact hhd (he ▸ hk)

theorem dictOf_nodup {β : Type} (pairs : List (String × β))
    (h : (pairs.map Prod.fst).Nodup) : dictOf pairs = pairs := by
  have := dictOf_aux pairs [] h (fun k _ q hq => absurd hq (List.not_mem_nil q))
  simpa [dictOf] using this

theorem defaultWeights_nodup (mts : List String) (h : mts.Nodup) :
    defaultWeights mts = mts.map (fun mt => (mt, 1 / (mts.length : ℚ))) := by
  rw [defaultWeights, dictOf_nodup]
  simpa [List.map_map, Function.comp_def] using h

theorem codeTriples_ne_nil : codeTriples ≠ [] := by
  intro h
  have := codeTriples_head
  rw [h] at this
  cases this

/-- Claim C6, counterexample: `EnsembleTrainer` accepts any member list;
after the default weight initialization of `train_all`, an empty member list
gives weight sum 0 and a duplicated member list gives weight sum 1/2 (the
dict comprehension collapses duplicate keys), both far outside 1e-6 of 1. -/
theorem C6_counterexample :
    sumValues (defaultWeights []) = 0 ∧
    ¬ |sumValues (defaultWeights []) - 1| ≤ 1/1000000 ∧
    sumValues (defaultWeights ["xgboost", "xgboost"]) = 1/2 ∧
    ¬ |sumValues (defaultWeights ["xgboost", "xgboost"]) - 1| ≤ 1/1000000 := by
  have h0 : defaultWeights [] = [] := rfl
  have h2 : defaultWeights ["xgboost", "xgboost"] = [("xgboost", 1/2)] := by
    norm_num [defaultWeights, dictOf, dictInsert]
  rw [h0, h2]
  norm_num [sumValues, abs_le]

/-- Claim C6 (amended): for every `EnsembleTrainer` whose member list is
nonempty and duplicate-free, the default initialization of `train_all` gives
weights summing to exactly 1; and for a three-member list the weights
assigned by a grid-search `optimize_weights` call also sum to exactly 1
(hence both are within 1e-6 of 1). -/
theorem C6_theorem :
    (∀ mts : List String, mts ≠ [] → mts.Nodup →
      |sumValues (defaultWeights mts) - 1| ≤ 1/1000000) ∧
    (∀ (mts : List String) (score : ℚ × ℚ × ℚ → ℚ) (w0 : List (String × ℚ)),
      mts.Nodup → mts.length = 3 →
      |sumValues (optimizeWeightsUpdate mts score w0) - 1| ≤ 1/1000000) := by
  constructor
  · intro mts hne hnd
    rw [defaultWeights_nodup mts hnd]
    have hsum : sumValues (mts.map (fun mt => (mt, 1 / (mts.length : ℚ)))) =
        (mts.length : ℚ) * (1 / (mts.length : ℚ)) := by
      simp [sumValues, List.map_map, Function.comp_def, List.map_const',
        List.sum_replicate, nsmul_eq_mul]
    have hlen : (mts.length : ℚ) ≠ 0 := by
      simpa using hne
    rw [hsum, mul_one_div_cancel hlen]
    norm_num
  · intro mts score w0 hnd hlen
    cases hsearch : optimizeWeightsSearch score with
    | none =>
      exfalso
      rw [optimizeWeightsSearch, foldBest_eq_firstMax] at hsearch
      exact codeTriples_ne_nil (firstMax_eq_none _ _ hsearch)
    | some t =>
      have ht : t ∈ codeTriples := by
        rw [optimizeWeightsSearch, foldBest_eq_firstMax] at hsearch
        exact firstMax_mem _ _ _ hsearch
      have ht3 : t.2.2 = 1 - t.1 - t.2.1 :=
        ((mem_gridTriples gridSteps t).mp ht).2.2.1
      match mts, hlen with
      | [a, b, c], _ =>
        have hzip : zipWeights [a, b, c] t =
            [(a, t.1), (b, t.2.1), (c, t.2.2)] := by
          rw [zipWeights, dictOf_nodup]
          · rfl
          · simpa using hnd
        have hcond : ([a, b, c] : List String).length = 3 := rfl
        rw [optimizeWeightsUpdate, if_pos hcond, hsearch]
        show |sumValues (zipWeights [a, b, c] t) - 1| ≤ 1/1000000
        rw [hzip, sumValues]
        simp only [List.map_cons, List.map_nil, List.sum_cons, List.sum_nil]
        rw [ht3]
        ring_nf
        norm_num

/-- Claim C6, witness: the amended statement evaluated at the standard
three-member list, for the default initialization and for an
`optimize_weights` update with a constant objective. -/
theorem C6_witness :
    |sumValues (defaultWeights ["xgboost", "lightgbm", "catboost"]) - 1| ≤
      1/1000000 ∧
    |sumValues (optimizeWeightsUpdate ["xgboost", "lightgbm", "catboost"]
      (fun _ => 0) []) - 1| ≤ 1/1000000 :=
  ⟨C6_theorem.1 ["xgboost", "lightgbm", "catboost"] (by decide) (by decide),
   C6_theorem.2 ["xgboost", "lightgbm", "catboost"] (fun _ => 0) []
     (by decide) (by decide)⟩

/-! ### Categorical encoding

`DataPreprocessor._encode_categorical` (src/preprocessing.py, lines
536-567).  `sklearn.LabelEncoder.fit` stores the sorted distinct values of
the fitted column as `classes_`; `transform` maps a value to its index in
`classes_` and raises on unseen labels.  At transform time the code first
maps any unseen value to `le.classes_[0]` and only then calls
`le.transform`. -/

/-- `LabelEncoder.fit`: `classes_` is `np.unique(column)`, the sorted list
of distinct values. -/
def fitClasses (col : List String) : List String :=
  (col.dedup).insertionSort (· ≤ ·)

/-- `LabelEncoder.transform` on one value: the index in `classes_`, raising
`ValueError` on a label not seen during fit. -/
def leTransform (classes : List String) (x : String) : Except String Nat :=
  if x ∈ classes then .ok (classes.indexOf x)
  else .error "y contains previously unseen labels"

/-- `le.classes_[0]`: `IndexError` on an empty vocabulary. -/
def firstClass (classes : List String) : Except String String :=
  match classes with
  | [] => .error "index 0 is out of bounds"
  | c :: _ => .ok c

/-- The per-value mapping applied by `_encode_categorical` at transform
time (src/preprocessing.py, lines 561-565):
`x if x in le.classes_ else le.classes_[0]`, then `le.transform`. -/
def encodeValue (classes : List String) (x : String) : Except String Nat := do
  let x1 ← if x ∈ classes then Except.ok x else firstClass classes
  leTransform classes x1

/-- Claim C7: for a vocabulary fitted on a nonempty column, encoding an
unseen value does not raise and yields code 0 — the code of the first class
of the fitted vocabulary — which is a valid in-vocabulary code. -/
theorem C7_theorem (col : List String) (x : String) (hcol : col ≠ [])
    (hx : x ∉ fitClasses col) :
    encodeValue (fitClasses col) x = .ok 0 ∧
    (∀ c0 cs, fitClasses col = c0 :: cs →
      encodeValue (fitClasses col) c0 = .ok 0) ∧
    0 < (fitClasses col).length := by
  have hlen : (fitClasses col).length = col.dedup.length :=
    (List.perm_insertionSort _ col.dedup).length_eq
  have hpos : 0 < (fitClasses col).length := by
    rw [hlen]
    exact List.length_pos.mpr (by simpa [List.dedup_eq_nil] using hcol)
  have hcons : ∀ c0 cs, fitClasses col = c0 :: cs →
      encodeValue (fitClasses col) c0 = .ok 0 := by
    intro c0 cs heq
    rw [heq]
    have hc0 : c0 ∈ c0 :: cs := List.mem_cons_self _ _
    simp only [encodeValue, if_pos hc0]
    show leTransform (c0 :: cs) c0 = .ok 0
    rw [leTransform, if_pos hc0, List.indexOf_cons_self]
  refine ⟨?_, hcons, hpos⟩
  obtain ⟨c0, cs, heq⟩ : ∃ c0 cs, fitClasses col = c0 :: cs := by
    cases hfc : fitClasses col with
    | nil => rw [hfc] at hpos; cases hpos
    | cons c0 cs => exact ⟨c0, cs, rfl⟩
  rw [heq] at hx ⊢
  have hc0 : c0 ∈ c0 :: cs := List.mem_cons_self _ _
  simp only [encodeValue, if_neg hx, firstClass]
  show leTransform (c0 :: cs) c0 = .ok 0
  rw [leTransform, if_pos hc0, List.indexOf_cons_self]

/-- The one-value fitted column of the encoding witness. -/
def colC7 : List String := ["A"]

/-- The unseen categorical value of the encoding witness. -/
def xC7 : String := "C"

/-- Claim C7, witness: a vocabulary fitted on the one-value column ["A"];
the unseen value "C" encodes to 0 without raising. -/
theorem C7_witness :
    colC7 ≠ [] ∧ xC7 ∉ fitClasses colC7 ∧
    encodeValue (fitClasses colC7) xC7 = .ok 0 ∧
    0 < (fitClasses colC7).length := by
  have h1 : colC7 ≠ [] := by decide
  have h2 : xC7 ∉ fitClasses colC7 := by
    intro h
    rw [show fitClasses colC7 = ["A"] from rfl] at h
    exact absurd (List.mem_singleton.mp h) (by decide)
  exact ⟨h1, h2, (C7_theorem colC7 xC7 h1 h2).1, (C7_theorem colC7 xC7 h1 h2).2.2⟩

/-! ### Percentage-accuracy metrics of `ModelEvaluator.evaluate`

src/evaluation.py, lines 64-71: `relative_errors = |y_true - y_pred| /
y_true`, and `within_k_pct = (relative_errors <= k/100).sum() /
len(y_true) * 100`.  In numpy a row with `y_true = 0` contributes `inf` or
`NaN` to the quotient and therefore fails every `<=` comparison, which the
Boolean test below reproduces. -/

/-- One row of the `relative_errors <= thr` comparison. -/
def relWithin (thr yt yp : ℚ) : Bool :=
  if yt = 0 then false else decide (|yt - yp| / yt ≤ thr)

/-- `within_k_pct` for threshold `thr` (a fraction, e.g. 5/100). -/
def withinPct (thr : ℚ) (ytrue ypred : List ℚ) : ℚ :=
  (((ytrue.zip ypred).countP (fun q => relWithin thr q.1 q.2) : ℕ) : ℚ) /
    (ytrue.length : ℚ) * 100

theorem relWithin_mono (thr1 thr2 yt yp : ℚ) (h : thr1 ≤ thr2)
    (hw : relWithin thr1 yt yp = true) : relWithin thr2 yt yp = true := by
  rw [relWithin] at hw ⊢
  by_cases hyt : yt = 0
  · rw [if_pos hyt] at hw; cases hw
  · rw [if_neg hyt] at hw ⊢
    exact decide_eq_true_eq.mpr (le_trans (decide_eq_true_eq.mp hw) h)

/-- Claim C8: for equal-length, nonempty prediction vectors the reported
`within_10_pct` is at least `within_5_pct`, and both lie in [0, 100]. -/
theorem C8_theorem (ytrue ypred : List ℚ) (hlen : ytrue.length = ypred.length)
    (hpos : 0 < ytrue.length) :
    withinPct (5/100) ytrue ypred ≤ withinPct (10/100) ytrue ypred ∧
    0 ≤ withinPct (5/100) ytrue ypred ∧
    withinPct (5/100) ytrue ypred ≤ 100 ∧
    0 ≤ withinPct (10/100) ytrue ypred ∧
    withinPct (10/100) ytrue ypred ≤ 100 := by
  have hn : (0 : ℚ) < (ytrue.length : ℚ) := by exact_mod_cast hpos
  have hzip : (ytrue.zip ypred).length = ytrue.length := by
    rw [List.length_zip, hlen, min_self]
  have hcount : ∀ thr : ℚ,
      (ytrue.zip ypred).countP (fun q => relWithin thr q.1 q.2) ≤
        ytrue.length := by
    intro thr
    rw [← hzip]
    exact List.countP_le_length _
  have hmono :
      (ytrue.zip ypred).countP (fun q => relWithin (5/100) q.1 q.2) ≤
        (ytrue.zip ypred).countP (fun q => relWithin (10/100) q.1 q.2) :=
    List.countP_mono_left (fun a _ ha =>
      relWithin_mono (5/100) (10/100) a.1 a.2 (by norm_num) ha)
  have hbound : ∀ thr : ℚ, 0 ≤ withinPct thr ytrue ypred ∧
      withinPct thr ytrue ypred ≤ 100 := by
    intro thr
    constructor
    · rw [withinPct]
      positivity
    · rw [withinPct]
      have hle : (((ytrue.zip ypred).countP
          (fun q => relWithin thr q.1 q.2) : ℕ) : ℚ) ≤ (ytrue.length : ℚ) := by
        exact_mod_cast hcount thr
      have h1 : (((ytrue.zip ypred).countP
          (fun q => relWithin thr q.1 q.2) : ℕ) : ℚ) / (ytrue.length : ℚ) ≤ 1 :=
        (div_le_one hn).mpr hle
      calc ((((ytrue.zip ypred).countP (fun q => relWithin thr q.1 q.2) : ℕ) : ℚ) /
              (ytrue.length : ℚ)) * 100
          ≤ 1 * 100 := mul_le_mul_of_nonneg_right h1 (by norm_num)
        _ = 100 := one_mul _
  refine ⟨?_, (hbound _).1, (hbound _).2, (hbound _).1, (hbound _).2⟩
  rw [withinPct, withinPct]
  have hm : (((ytrue.zip ypred).countP (fun q => relWithin (5/100) q.1 q.2) : ℕ) : ℚ) ≤
      (((ytrue.zip ypred).countP (fun q => relWithin (10/100) q.1 q.2) : ℕ) : ℚ) := by
    exact_mod_cast hmono
  gcongr

/-- Claim C8, witness: the metric bounds evaluated on a concrete pair of
two-element vectors. -/
theorem C8_witness :
    ([100, (100 : ℚ)].length = [104, (120 : ℚ)].length) ∧
    0 < [100, (100 : ℚ)].length ∧
    withinPct (5/100) [100, 100] [104, 120] ≤
      withinPct (10/100) [100, 100] [104, 120] ∧
    withinPct (10/100) [100, 100] [104, 120] ≤ 100 := by
  have h := C8_theorem [100, 100] [104, 120] rfl (by decide)
  exact ⟨rfl, by decide, h.1, h.2.2.2.2⟩

/-! ### Copy discipline of the preprocessing pipeline (heap model)

`DataPreprocessor.fit_transform` and `transform` never mutate the frame the
caller passes in: `DataCleaner.__init__` (line 181) and
`FeatureEngineer.__init__` (line 303) copy at construction,
`_encode_categorical` copies before encoding (line 547), and every in-place
pandas operation acts on those copies; frame-returning operations such as
`drop` build new frames.  Frames live in a heap addressed by references:
`.copy()` allocates a fresh cell, in-place operations write through the
reference that holds them.  The concrete column transformations performed
by cleaning, engineering and the encoder loop are irrelevant to the
mutation property, so they are parameters. -/

abbrev Heap := List Frame

def Heap.read (h : Heap) (r : Nat) : Option Frame := h.get? r

def Heap.alloc (h : Heap) (f : Frame) : Heap × Nat := (h ++ [f], h.length)

def Heap.write (h : Heap) (r : Nat) (f : Frame) : Heap := h.set r f

/-- The frame-level effect of the mutating stages: `DataCleaner.clean`,
`FeatureEngineer.engineer_all` and the column loop of
`_encode_categorical`. -/
structure StageOps where
  clean : Frame → Frame
  engineerOps : Frame → Frame
  encode : Frame → Frame

/-- `DataPreprocessor.fit_transform` (src/preprocessing.py, lines 437-485)
restricted to its frame effects: `DataValidator` only reads the caller
frame; `DataCleaner` and `FeatureEngineer` copy at construction and mutate
their own copy in place; `_encode_categorical` copies and mutates the copy;
the target-column and index-column drops build new frames. -/
def fitTransformHeap (ops : StageOps) (h : Heap) (r : Nat) :
    Option (Heap × Nat) :=
  match h.read r with
  | none => none
  | some df =>
    let (h1, rClean) := h.alloc df
    let dfClean := ops.clean df
    let h2 := h1.write rClean dfClean
    let (h3, rEng) := h2.alloc dfClean
    let dfEng := ops.engineerOps dfClean
    let h4 := h3.write rEng dfEng
    let (h5, rEnc) := h4.alloc dfEng
    let dfEnc := ops.encode dfEng
    let h6 := h5.write rEnc dfEnc
    let (h7, _rNoTarget) := h6.alloc (dropColumns ["price"] dfEnc)
    let (h8, rX) := h7.alloc
      (dropColumns ["index", "Unnamed: 0"] (dropColumns ["price"] dfEnc))
    some (h8, rX)

/-- `DataPreprocessor.transform` (src/preprocessing.py, lines 487-534)
restricted to its frame effects: the same three copies, then the schema
block: the drop builds a new frame `X`, the missing-feature loop
`X[col] = 0` mutates that fresh frame in place, and the final drops and the
column selection build new frames. -/
def transformHeap (ops : StageOps) (F : List String) (n : Nat) (h : Heap)
    (r : Nat) : Option (Heap × Nat) :=
  match h.read r with
  | none => none
  | some df =>
    let (h1, rClean) := h.alloc df
    let dfClean := ops.clean df
    let h2 := h1.write rClean dfClean
    let (h3, rEng) := h2.alloc dfClean
    let dfEng := ops.engineerOps dfClean
    let h4 := h3.write rEng dfEng
    let (h5, rEnc) := h4.alloc dfEng
    let dfEnc := ops.encode dfEng
    let h6 := h5.write rEnc dfEnc
    let X := dropColumns ["index", "Unnamed: 0", "price"] dfEnc
    let (h7, rX) := h6.alloc X
    let h8 := h7.write rX (addMissing F n X)
    let (h9, _rDrop) := h8.alloc (dropExtra F (addMissing F n X))
    match selectColumns F (dropExtra F (addMissing F n X)) with
    | none => none
    | some sel =>
      let (h10, rOut) := h9.alloc sel
      some (h10, rOut)

theorem set_append_length (h : List Frame) (a b : Frame) :
    (h ++ [a]).set h.length b = h ++ [b] := by
  induction h with
  | nil => rfl
  | cons x xs ih =>
    show x :: ((xs ++ [a]).set xs.length b) = x :: (xs ++ [b])
    rw [ih]

theorem read_append (h : Heap) (tl : List Frame) (r : Nat)
    (hlt : r < h.length) : (h ++ tl).read r = h.read r :=
  List.get?_append hlt

theorem read_foldl_snoc (r : Nat) (exts : List Frame) : ∀ x : Heap,
    r < x.length →
    Heap.read (exts.foldl (fun a f => a ++ [f]) x) r = Heap.read x r := by
  induction exts with
  | nil => intro x _; rfl
  | cons f fs ih =>
    intro x hx
    rw [List.foldl_cons, ih (x ++ [f]) (by rw [List.length_append]; omega),
      read_append x [f] r hx]

/-- Claim C9: whenever `fit_transform` or `transform` completes, the
caller's frame cell is untouched: it holds exactly the columns and values
it held before the call, for every choice of stage bodies. -/
theorem C9_theorem (ops : StageOps) (h : Heap) (r : Nat) :
    (∀ out, fitTransformHeap ops h r = some out → out.1.read r = h.read r) ∧
    (∀ F n out, transformHeap ops F n h r = some out →
      out.1.read r = h.read r) := by
  cases hr : h.read r with
  | none =>
    constructor
    · intro out hout
      rw [fitTransformHeap, hr] at hout
      simp at hout
    · intro F n out hout
      rw [transformHeap, hr] at hout
      simp at hout
  | some df =>
    have hlt : r < h.length := by
      rw [Heap.read] at hr
      exact (List.get?_eq_some.mp hr).1
    constructor
    · intro out hout
      rw [fitTransformHeap, hr] at hout
      simp only [Heap.alloc, Heap.write, set_append_length,
        Option.some.injEq] at hout
      subst hout
      show Heap.read (List.foldl (fun a f => a ++ [f]) h [_, _, _, _, _]) r =
        some df
      rw [read_foldl_snoc r _ h hlt]
      exact hr
    · intro F n out hout
      rw [transformHeap, hr] at hout
      simp only [Heap.alloc, Heap.write, set_append_length] at hout
      cases hsel : selectColumns F (dropExtra F (addMissing F n
          (dropColumns ["index", "Unnamed: 0", "price"]
            (ops.encode (ops.engineerOps (ops.clean df)))))) with
      | none =>
        rw [hsel] at hout
        simp at hout
      | some sel =>
        rw [hsel] at hout
        simp only [Option.some.injEq] at hout
        subst hout
        show Heap.read
          (List.foldl (fun a f => a ++ [f]) h [_, _, _, _, _, _]) r = some df
        rw [read_foldl_snoc r _ h hlt]
        exact hr

/-- The identity stage bodies, for the concrete witness. -/
def opsId : StageOps := ⟨id, id, id⟩

/-- A one-frame heap holding the caller's frame. -/
def heapC9 : Heap := [[("a", [1])]]

/-- Claim C9, witness: both pipeline calls on a concrete one-frame heap
leave the caller's cell unchanged. -/
theorem C9_witness :
    (∃ out, fitTransformHeap opsId heapC9 0 = some out ∧
      out.1.read 0 = heapC9.read 0) ∧
    (∃ out, transformHeap opsId ["a"] 1 heapC9 0 = some out ∧
      out.1.read 0 = heapC9.read 0) := by
  constructor
  · refine ⟨(heapC9 ++ [[("a", [1])], [("a", [1])], [("a", [1])],
      [("a", [1])], [("a", [1])]], 5), by decide, ?_⟩
    exact (C9_theorem opsId heapC9 0).1 _ (by decide)
  · refine ⟨(heapC9 ++ [[("a", [1])], [("a", [1])], [("a", [1])],
      [("a", [1])], [("a", [1])], [("a", [1])]], 6), by decide, ?_⟩
    exact (C9_theorem opsId heapC9 0).2 ["a"] 1 _ (by decide)

/-! ### Training pipeline orchestration

`TrainingPipeline.train_all_models` (src/training.py, lines 414-491): each
requested member model is trained inside a `try` block — an exception is
logged and the loop continues (`continue` in the `except` arm); the
`ensemble` entry is handled after the loop and is built only from the
members that trained successfully, and only when at least 2 of
{xgboost, lightgbm, catboost} are available; with fewer than 2 the pipeline
logs a warning and returns normally with no ensemble entry. -/

inductive TrainedEntry where
  | single (m : BoostModel)
  | ensembleOf (members : List String)
deriving DecidableEq, Repr

/-- The member-training loop (lines 440-463): `trained_models` with the
dict-insert of `self.trained_models[model_type] = trainer`.  The `oracle`
gives the outcome of `ModelTrainer(t).train(...)`: `some m` when training
succeeds, `none` when it raises (caught, logged, skipped). -/
def trainMembers (oracle : String → Option BoostModel)
    (toTrain : List String) : List (String × BoostModel) :=
  toTrain.foldl (fun acc t =>
    if t = "ensemble" then acc
    else
      match oracle t with
      | some m => dictInsert t m acc
      | none => acc) []

/-- `ensemble_models` (line 470). -/
def ensembleMembers : List String := ["xgboost", "lightgbm", "catboost"]

/-- `TrainingPipeline.train_all_models`: the trained members, plus the
ensemble entry when requested and at least two members are available. -/
def train_all_models (oracle : String → Option BoostModel)
    (toTrain : List String) : List (String × TrainedEntry) :=
  let trained := trainMembers oracle toTrain
  let base := trained.map (fun p => (p.1, TrainedEntry.single p.2))
  if "ensemble" ∈ toTrain then
    let available := ensembleMembers.filter
      (fun m => decide (m ∈ trained.map Prod.fst))
    if 2 ≤ available.length then
      base ++ [("ensemble", TrainedEntry.ensembleOf available)]
    else base
  else base

theorem dictInsert_keys {β : Type} (k t : String) (v : β)
    (d : List (String × β)) :
    k ∈ (dictInsert t v d).map Prod.fst ↔ k = t ∨ k ∈ d.map Prod.fst := by
  rw [dictInsert]
  by_cases hany : d.any (fun p => p.1 == t)
  · rw [if_pos hany]
    constructor
    · intro hk
      rw [List.map_map, List.mem_map] at hk
      obtain ⟨p, hp, hpk⟩ := hk
      by_cases hpt : p.1 == t
      · left
        simp only [Function.comp_def, if_pos hpt] at hpk
        exact hpk.symm
      · right
        simp only [Function.comp_def, if_neg hpt] at hpk
        exact hpk ▸ List.mem_map_of_mem Prod.fst hp
    · intro hk
      rw [List.map_map, List.mem_map]
      rcases hk with rfl | hk
      · rw [List.any_eq_true] at hany
        obtain ⟨p, hp, hpt⟩ := hany
        exact ⟨p, hp, by simp [Function.comp_def, hpt, beq_iff_eq.mp hpt]⟩
      · rw [List.mem_map] at hk
        obtain ⟨p, hp, hpk⟩ := hk
        refine ⟨p, hp, ?_⟩
        by_cases hpt : p.1 == t
        · simp only [Function.comp_def, if_pos hpt]
          rw [← hpk]
          exact (beq_iff_eq.mp hpt).symm
        · simp only [Function.comp_def, if_neg hpt]
          exact hpk
  · rw [if_neg hany]
    rw [List.map_append, List.mem_append]
    simp [or_comm]

theorem trainMembers_aux (oracle : String → Option BoostModel)
    (l : List String) : ∀ (acc : List (String × BoostModel)) (m : String),
    (m ∈ (l.foldl (fun acc t =>
      if t = "ensemble" then acc
      else
        match oracle t with
        | some mo => dictInsert t mo acc
        | none => acc) acc).map Prod.fst) ↔
    (m ∈ acc.map Prod.fst ∨
      (m ∈ l ∧ m ≠ "ensemble" ∧ (oracle m).isSome = true)) := by
  induction l with
  | nil => intro acc m; simp
  | cons t ts ih =>
    intro acc m
    rw [List.foldl_cons]
    by_cases ht : t = "ensemble"
    · rw [if_pos ht, ih]
      subst ht
      constructor
      · rintro (h | ⟨h1, h2, h3⟩)
        · exact Or.inl h
        · exact Or.inr ⟨List.mem_cons_of_mem _ h1, h2, h3⟩
      · rintro (h | ⟨h1, h2, h3⟩)
        · exact Or.inl h
        · rcases List.mem_cons.mp h1 with rfl | h1b
          · exact absurd rfl h2
          · exact Or.inr ⟨h1b, h2, h3⟩
    · rw [if_neg ht]
      cases horc : oracle t with
      | none =>
        rw [ih]
        constructor
        · rintro (h | ⟨h1, h2, h3⟩)
          · exact Or.inl h
          · exact Or.inr ⟨List.mem_cons_of_mem _ h1, h2, h3⟩
        · rintro (h | ⟨h1, h2, h3⟩)
          · exact Or.inl h
          · rcases List.mem_cons.mp h1 with rfl | h1b
            · rw [horc] at h3; cases h3
            · exact Or.inr ⟨h1b, h2, h3⟩
      | some mo =>
        rw [ih]
        constructor
        · rintro (h | ⟨h1, h2, h3⟩)
          · rcases (dictInsert_keys m t mo acc).mp h with rfl | hacc
            · exact Or.inr ⟨List.mem_cons_self _ _, ht, by rw [horc]; rfl⟩
            · exact Or.inl hacc
          · exact Or.inr ⟨List.mem_cons_of_mem _ h1, h2, h3⟩
        · rintro (h | ⟨h1, h2, h3⟩)
          · exact Or.inl ((dictInsert_keys m t mo acc).mpr (Or.inr h))
          · rcases List.mem_cons.mp h1 with rfl | h1b
            · exact Or.inl ((dictInsert_keys m m mo acc).mpr (Or.inl rfl))
            · exact Or.inr ⟨h1b, h2, h3⟩

theorem trainMembers_keys (oracle : String → Option BoostModel)
    (toTrain : List String) (m : String) :
    m ∈ (trainMembers oracle toTrain).map Prod.fst ↔
      (m ∈ toTrain ∧ m ≠ "ensemble" ∧ (oracle m).isSome = true) := by
  rw [trainMembers, trainMembers_aux]
  simp

/-- Claim C10: a member whose training raises is skipped and the loop
continues (a non-ensemble entry exists in the result exactly when it was
requested and its training succeeded); the ensemble entry exists exactly
when requested and at least 2 of {xgboost, lightgbm, catboost} trained
successfully, and it is built precisely from the successfully trained
members; with fewer than 2, no ensemble entry is produced and the call
still returns normally. -/
theorem C10_theorem (oracle : String → Option BoostModel)
    (toTrain : List String) :
    (∀ m : String, m ≠ "ensemble" →
      (m ∈ (train_all_models oracle toTrain).map Prod.fst ↔
        (m ∈ toTrain ∧ (oracle m).isSome = true))) ∧
    ("ensemble" ∈ (train_all_models oracle toTrain).map Prod.fst ↔
      ("ensemble" ∈ toTrain ∧ 2 ≤ (ensembleMembers.filter
        (fun m => decide (m ∈ (trainMembers oracle toTrain).map
          Prod.fst))).length)) ∧
    (∀ ms, ("ensemble", TrainedEntry.ensembleOf ms) ∈
        train_all_models oracle toTrain →
      ms = ensembleMembers.filter
        (fun m => decide (m ∈ (trainMembers oracle toTrain).map Prod.fst)) ∧
      ∀ m ∈ ms, m ∈ toTrain ∧ (oracle m).isSome = true) := by
  have hbase : ∀ m : String,
      m ∈ ((trainMembers oracle toTrain).map
        (fun p => (p.1, TrainedEntry.single p.2))).map Prod.fst ↔
      m ∈ (trainMembers oracle toTrain).map Prod.fst := by
    intro m
    rw [List.map_map]
    constructor <;>
      · intro hm
        rw [List.mem_map] at hm ⊢
        obtain ⟨p, hp, hpk⟩ := hm
        exact ⟨p, hp, hpk⟩
  refine ⟨?_, ?_, ?_⟩
  · intro m hm
    rw [train_all_models]
    by_cases hens : "ensemble" ∈ toTrain
    · rw [if_pos hens]
      by_cases h2 : 2 ≤ (ensembleMembers.filter
          (fun m => decide (m ∈ (trainMembers oracle toTrain).map
            Prod.fst))).length
      · rw [if_pos h2, List.map_append, List.mem_append]
        constructor
        · rintro (h | h)
          · have := (trainMembers_keys oracle toTrain m).mp ((hbase m).mp h)
            exact ⟨this.1, this.2.2⟩
          · simp at h
            exact absurd h hm
        · rintro ⟨h1, h3⟩
          exact Or.inl ((hbase m).mpr
            ((trainMembers_keys oracle toTrain m).mpr ⟨h1, hm, h3⟩))
      · rw [if_neg h2, hbase, trainMembers_keys]
        exact ⟨fun h => ⟨h.1, h.2.2⟩, fun h => ⟨h.1, hm, h.2⟩⟩
    · rw [if_neg hens, hbase, trainMembers_keys]
      exact ⟨fun h => ⟨h.1, h.2.2⟩, fun h => ⟨h.1, hm, h.2⟩⟩
  · rw [train_all_models]
    have hnotbase : "ensemble" ∉ ((trainMembers oracle toTrain).map
        (fun p => (p.1, TrainedEntry.single p.2))).map Prod.fst := by
      intro h
      exact (((trainMembers_keys oracle toTrain "ensemble").mp
        ((hbase "ensemble").mp h)).2.1) rfl
    by_cases hens : "ensemble" ∈ toTrain
    · rw [if_pos hens]
      by_cases h2 : 2 ≤ (ensembleMembers.filter
          (fun m => decide (m ∈ (trainMembers oracle toTrain).map
            Prod.fst))).length
      · rw [if_pos h2, List.map_append, List.mem_append]
        simp only [List.map_cons, List.map_nil]
        exact ⟨fun _ => ⟨hens, h2⟩, fun _ => Or.inr (by simp)⟩
      · rw [if_neg h2]
        exact ⟨fun h => absurd h hnotbase, fun h => absurd h.2 h2⟩
    · rw [if_neg hens]
      exact ⟨fun h => absurd h hnotbase, fun h => absurd h.1 hens⟩
  · intro ms hms
    rw [train_all_models] at hms
    have hnotbase : ("ensemble", TrainedEntry.ensembleOf ms) ∉
        (trainMembers oracle toTrain).map
          (fun p => (p.1, TrainedEntry.single p.2)) := by
      intro h
      rw [List.mem_map] at h
      obtain ⟨p, _, hpk⟩ := h
      exact TrainedEntry.noConfusion (congrArg Prod.snd hpk)
    by_cases hens : "ensemble" ∈ toTrain
    · rw [if_pos hens] at hms
      by_cases h2 : 2 ≤ (ensembleMembers.filter
          (fun m => decide (m ∈ (trainMembers oracle toTrain).map
            Prod.fst))).length
      · rw [if_pos h2, List.mem_append] at hms
        rcases hms with hms | hms
        · exact absurd hms hnotbase
        · rcases List.mem_singleton.mp hms with heq
          have hmseq : TrainedEntry.ensembleOf ms = TrainedEntry.ensembleOf
              (ensembleMembers.filter (fun m =>
                decide (m ∈ (trainMembers oracle toTrain).map Prod.fst))) :=
            congrArg Prod.snd heq
          injection hmseq with hmseq2
          subst hmseq2
          refine ⟨rfl, ?_⟩
          intro m hmmem
          have h3 := (List.mem_filter.mp hmmem).2
          rw [decide_eq_true_eq] at h3
          have := (trainMembers_keys oracle toTrain m).mp h3
          exact ⟨this.1, this.2.2⟩
      · rw [if_neg h2] at hms
        exact absurd hms hnotbase
    · rw [if_neg hens] at hms
      exact absurd hms hnotbase

/-- A concrete training-success oracle for the witness: xgboost and
lightgbm train successfully, catboost raises. -/
def oracleC10 : String → Option BoostModel := fun t =>
  if t = "xgboost" then some .xgboost
  else if t = "lightgbm" then some .lightgbm
  else none

/-- The default `MODELS_TO_TRAIN` list of src/config.py. -/
def toTrainC10 : List String := ["xgboost", "lightgbm", "catboost", "ensemble"]

/-- Claim C10, witness: with catboost failing, the failed member is absent,
the loop continues, and the ensemble is built from the two survivors. -/
theorem C10_witness :
    (("catboost" ∈ (train_all_models oracleC10 toTrainC10).map Prod.fst) ↔
      ("catboost" ∈ toTrainC10 ∧ (oracleC10 "catboost").isSome = true)) ∧
    (train_all_models oracleC10 toTrainC10).map Prod.fst =
      ["xgboost", "lightgbm", "ensemble"] := by
  refine ⟨(C10_theorem oracleC10 toTrainC10).1 "catboost" (by decide), ?_⟩
  decide

end FlatPrice
